import Mathlib

/-
Shallow embedding of the ocr_utils module.

Text is modelled as a value of type List Char. Machine effects of the
external libraries (the HTTP client, the OCR engine, the PDF rasterizer
and the image library) are modelled as explicit parameters returning
Except values: an error value stands for an exception raised by the
external call, an ok value for its result. The pure post-processing of
those results is translated line by line from the source.
-/

/-- Whitespace predicate matching the str.split and str.strip behaviour
of the source language for the characters that can occur here. -/
def isPySpace (c : Char) : Bool :=
  c = ' ' || c = '\t' || c = '\n' || c = '\r' || c = '\x0b' || c = '\x0c'

/-- Splitting on every newline, keeping empty pieces: text.split with a
newline separator. The result always has count-of-newlines plus one
elements, hence is never empty. -/
def splitOnNewline : List Char → List (List Char)
  | [] => [[]]
  | c :: cs =>
    if c = '\n' then [] :: splitOnNewline cs
    else
      match splitOnNewline cs with
      | [] => [[c]]
      | l :: ls => (c :: l) :: ls

/-- Accumulator worker for pySplitWs: acc holds the current word reversed. -/
def wordsAux : List Char → List Char → List (List Char)
  | acc, [] => if acc = [] then [] else [acc.reverse]
  | acc, c :: cs =>
    if isPySpace c then
      (if acc = [] then [] else [acc.reverse]) ++ wordsAux [] cs
    else
      wordsAux (c :: acc) cs

/-- Splitting on runs of whitespace, discarding empty pieces: the
no-argument str.split of the source. -/
def pySplitWs (l : List Char) : List (List Char) := wordsAux [] l

/-- Removing leading and trailing whitespace: str.strip of the source. -/
def pyStrip (l : List Char) : List Char :=
  ((l.dropWhile isPySpace).reverse.dropWhile isPySpace).reverse

/-- Inner word loop of split_message, translated from the source: greedy
packing of the words of an over-long line, flushing full chunks into
messages and keeping the partial chunk in temp. -/
def packWords (max_length : Nat) :
    List (List Char) → List (List Char) → List Char → List (List Char) × List Char
  | [], messages, temp => (messages, temp)
  | word :: ws, messages, temp =>
    if temp.length + word.length + 1 ≤ max_length then
      packWords max_length ws messages (temp ++ word ++ [' '])
    else
      packWords max_length ws (messages ++ [pyStrip temp]) (word ++ [' '])

/-- Conditional flush used twice by split_message: when the accumulating
chunk is nonempty, its trimmed form is appended to the message list. -/
def flushCurrent (messages : List (List Char)) (current_message : List Char) :
    List (List Char) :=
  if current_message = [] then messages else messages ++ [pyStrip current_message]

/-- Outer line loop of split_message, translated from the source. -/
def splitLines (max_length : Nat) :
    List (List Char) → List (List Char) → List Char → List (List Char) × List Char
  | [], messages, current_message => (messages, current_message)
  | line :: rest, messages, current_message =>
    if current_message.length + line.length + 1 ≤ max_length then
      splitLines max_length rest messages (current_message ++ line ++ ['\n'])
    else if max_length < line.length then
      splitLines max_length rest
        (packWords max_length (pySplitWs line) (flushCurrent messages current_message) []).1
        (packWords max_length (pySplitWs line) (flushCurrent messages current_message) []).2
    else
      splitLines max_length rest (flushCurrent messages current_message) (line ++ ['\n'])

/-- split_message of the source: split long text into smaller chunks.
The maximum length defaults in the source to a configured constant that
is not part of this module; it is passed explicitly here. -/
def split_message (text : List Char) (max_length : Nat) : List (List Char) :=
  if flushCurrent (splitLines max_length (splitOnNewline text) [] []).1
      (splitLines max_length (splitOnNewline text) [] []).2 = [] then [[]]
  else
    flushCurrent (splitLines max_length (splitOnNewline text) [] []).1
      (splitLines max_length (splitOnNewline text) [] []).2

/-- The statistics record returned by get_text_statistics. -/
structure TextStats where
  lines : Nat
  words : Nat
  characters : Nat
deriving DecidableEq

/-- get_text_statistics of the source. The source wraps the computation
in an exception handler returning a null value, but no operation inside
can raise on a string input, so the embedding always returns some. -/
def get_text_statistics (text : List Char) : Option TextStats :=
  some { lines := (splitOnNewline text).length
       , words := (pySplitWs text).length
       , characters := text.length }

/-- A line of fifty equals signs, as used by the page banners. -/
def eqBanner : List Char := List.replicate 50 '='

/-- The per-page header produced by extract_text_from_image_tesseract
when a page number is supplied. -/
def pageHeader (n : Nat) : List Char :=
  eqBanner ++ '\n' :: ("Page ".data ++ (Nat.repr n).data) ++ '\n' :: eqBanner ++ ['\n', '\n']

/-- extract_text_from_image_tesseract of the source. The ocr argument
models the combined outcome of decoding the image, converting it to RGB
and running the engine: an error value stands for any exception raised
inside the try block before the banner logic, an ok value for the raw
engine text. -/
def extract_text_from_image_tesseract (ocr : Except (List Char) (List Char))
    (page_number : Option Nat) : List Char :=
  match ocr with
  | .error e => "ERROR: Image processing failed: ".data ++ e
  | .ok raw =>
    let text := pyStrip raw
    match page_number with
    | some n => pageHeader n ++ text
    | none => text

/-- The separator the PDF extractor places between consecutive pages. -/
def pageSeparator : List Char := '\n' :: '\n' :: eqBanner ++ ['\n', '\n']

/-- Joining a list of strings with single newlines: the newline join of
the source. -/
def joinNL : List (List Char) → List Char
  | [] => []
  | [l] => l
  | l :: l2 :: ls => l ++ '\n' :: joinNL (l2 :: ls)

/-- Page loop of extract_text_from_pdf: pages are numbered from one and
a separator is appended after every page but the last. -/
def pdfBody (total : Nat) : Nat → List (Except (List Char) (List Char)) → List (List Char)
  | _, [] => []
  | i, p :: ps =>
    let page_text := extract_text_from_image_tesseract p (some i)
    if i < total then
      page_text :: pageSeparator :: pdfBody total (i + 1) ps
    else
      page_text :: pdfBody total (i + 1) ps

/-- extract_text_from_pdf of the source. The raster argument models the
outcome of the rasterizer call: an error value stands for an exception
raised while rasterizing, an ok value carries one entry per page, each
entry being the outcome of the per-page engine call as passed on to
extract_text_from_image_tesseract. -/
def extract_text_from_pdf
    (raster : Except (List Char) (List (Except (List Char) (List Char)))) : List Char :=
  match raster with
  | .error e => "ERROR: PDF processing failed: ".data ++ e
  | .ok images =>
    let total_pages := images.length
    let all_text := pdfBody total_pages 1 images
    let header := "Total Pages: ".data ++ (Nat.repr total_pages).data
        ++ '\n' :: eqBanner ++ ['\n', '\n']
    header ++ joinNL all_text

/-- The three shapes of input the remote extractor distinguishes: a
filesystem path, raw bytes, and anything else. -/
inductive ImageData
  | path (p : List Char)
  | bytes (b : List Nat)
  | other

/-- Outcome of the outbound HTTP call of the remote extractor: a
timeout, another exception, or a response with its status, the provider
error flag and message list, and the parsed text of each parsed result. -/
inductive HttpOutcome
  | timeout
  | exn (msg : List Char)
  | resp (ok : Bool) (status : Nat) (isErroredOnProcessing : Bool)
      (errorMessage : List (List Char)) (parsedTexts : List (List Char))

/-- Response handling of the remote extractor, translated from the
source. The message-list access with a default models the get with
default of the source. -/
def handleResponse : HttpOutcome → List Char
  | .timeout => "ERROR: OCR API request timed out".data
  | .exn m => "ERROR: ".data ++ m
  | .resp ok status isErrored errorMessage parsedTexts =>
    if ok then
      if isErrored then
        "ERROR: OCR processing failed: ".data ++ errorMessage.headD ("Unknown error".data)
      else
        match parsedTexts with
        | [] => "WARNING: No text detected in image".data
        | t :: _ =>
          let extracted := pyStrip t
          if extracted = [] then "WARNING: No text detected in image".data
          else extracted
    else
      "ERROR: Server connection failed (".data ++ (Nat.repr status).data ++ [')']

/-- extract_text_from_image_ocr_api of the source. readFile models
reading the file at a path, post models the outbound HTTP call. The
boolean in the result records whether the network call was made. -/
def extract_text_from_image_ocr_api
    (readFile : List Char → Except (List Char) (List Nat))
    (post : List Nat → HttpOutcome) :
    ImageData → List Char × Bool
  | .path p =>
    match readFile p with
    | .error e => ("ERROR: ".data ++ e, false)
    | .ok b => (handleResponse (post b), true)
  | .bytes b => (handleResponse (post b), true)
  | .other => ("ERROR: Invalid image data type".data, false)

/-- A decoded image as the validator sees it: width, height and the
format tag reported by the decoder. -/
structure DecodedImage where
  width : Nat
  height : Nat
  format : List Char
deriving DecidableEq

/-- validate_image of the source. The decoded argument models the
outcome of opening the image; the maximum width and height come from the
configured maximum pair, passed explicitly here. -/
def validate_image (maxW maxH : Nat)
    (decoded : Except (List Char) DecodedImage) : Bool × List Char :=
  match decoded with
  | .error e => (false, e)
  | .ok image =>
    if maxW < image.width ∨ maxH < image.height then
      (false, "Image size exceeds allowed limits".data)
    else if image.format ∈ ["JPEG".data, "PNG".data, "BMP".data, "TIFF".data] then
      (true, "OK".data)
    else
      (false, "Unsupported image format".data)

/-- enhance_image_for_ocr of the source. The local image variable is
rebound step by step inside the try block, so the value returned by the
exception handler is the value the variable holds when the exception is
raised; the nested matches reproduce that rebinding exactly. -/
def enhance_image_for_ocr {Img : Type}
    (mode : Img → List Char)
    (convertRGB sharpnessEnhance contrastEnhance grayscale : Img → Except (List Char) Img)
    (image : Img) : Img :=
  match (if mode image = "RGB".data then Except.ok image else convertRGB image) with
  | .error _ => image
  | .ok image2 =>
    match sharpnessEnhance image2 with
    | .error _ => image2
    | .ok image3 =>
      match contrastEnhance image3 with
      | .error _ => image3
      | .ok image4 =>
        match grayscale image4 with
        | .error _ => image4
        | .ok image5 => image5

/- Specification predicates used to state the splitter claims. -/

/-- A word as produced by whitespace splitting: nonempty and free of
whitespace characters. -/
def wordlike (w : List Char) : Prop := w ≠ [] ∧ ∀ c ∈ w, isPySpace c = false

/-- A string that is empty or ends in a whitespace character: invariant
of the accumulating chunk of the splitter. -/
def endsSpace (l : List Char) : Prop :=
  l = [] ∨ ∃ a c, isPySpace c = true ∧ l = a ++ [c]

/-- The whitespace-delimited tokens of a chunk list, in order. -/
def chunkWords (ms : List (List Char)) : List (List Char) := (ms.map pySplitWs).flatten

/-- A chunk is acceptable when its length is within the limit or it
consists of a single whitespace-free word. -/
def chunkOK (L : Nat) (m : List Char) : Prop :=
  m.length ≤ L ∨ ∀ c ∈ m, isPySpace c = false

/-- Invariant of the partial word-packing chunk: within the limit, or a
single word followed by one trailing space. -/
def tempOK (L : Nat) (temp : List Char) : Prop :=
  temp.length ≤ L ∨ ∃ w, wordlike w ∧ temp = w ++ [' ']

/- Facts about stripping, word splitting and the splitter loops. -/

theorem splitOnNewline_ne_nil (t : List Char) : splitOnNewline t ≠ [] := by
  cases t with
  | nil => simp [splitOnNewline]
  | cons c cs =>
    unfold splitOnNewline
    split
    · simp
    · split <;> simp

theorem length_pyStrip_le (l : List Char) : (pyStrip l).length ≤ l.length := by
  unfold pyStrip
  have h1 := (List.dropWhile_sublist (l := (l.dropWhile isPySpace).reverse) isPySpace).length_le
  have h2 := (List.dropWhile_sublist (l := l) isPySpace).length_le
  simp only [List.length_reverse] at *
  omega

theorem pyStrip_append_space {c : Char} (hc : isPySpace c = true) (l : List Char) :
    pyStrip (l ++ [c]) = pyStrip l := by
  unfold pyStrip
  rw [List.dropWhile_append]
  split
  · next h =>
    simp only [List.isEmpty_iff] at h
    simp [h, hc]
  · next h =>
    rw [List.reverse_append]
    simp [hc]

theorem pyStrip_no_space {w : List Char} (h : ∀ c ∈ w, isPySpace c = false) :
    pyStrip w = w := by
  have key : ∀ v : List Char, (∀ c ∈ v, isPySpace c = false) →
      v.dropWhile isPySpace = v := by
    intro v hv
    cases v with
    | nil => rfl
    | cons c cs => exact List.dropWhile_cons_of_neg (by simp [hv c (by simp)])
  unfold pyStrip
  rw [key w h, key _ (by intro c hc; exact h c (by simpa using hc)), List.reverse_reverse]

theorem pyStrip_concat_nonspace {c : Char} (hc : isPySpace c = false) (a : List Char) :
    pyStrip (a ++ [c]) = (a ++ [c]).dropWhile isPySpace := by
  unfold pyStrip
  rw [List.dropWhile_append]
  split
  · next h =>
    rw [List.dropWhile_cons_of_neg (by simp [hc])]
    simp [hc]
  · next h =>
    rw [List.reverse_append]
    simp only [List.reverse_cons, List.reverse_nil, List.nil_append]
    rw [List.singleton_append, List.dropWhile_cons_of_neg (by simp [hc])]
    simp

theorem wordsAux_cons_space {c : Char} (hc : isPySpace c = true) (acc cs : List Char) :
    wordsAux acc (c :: cs)
      = (if acc = [] then [] else [acc.reverse]) ++ wordsAux [] cs := by
  simp only [wordsAux, hc, if_true]

theorem wordsAux_cons_nonspace {c : Char} (hc : isPySpace c = false) (acc cs : List Char) :
    wordsAux acc (c :: cs) = wordsAux (c :: acc) cs := by
  simp only [wordsAux, hc]
  simp

theorem wordsAux_concat_space {c : Char} (hc : isPySpace c = true) :
    ∀ (a acc : List Char), wordsAux acc (a ++ [c]) = wordsAux acc a := by
  intro a
  induction a with
  | nil =>
    intro acc
    rw [List.nil_append, wordsAux_cons_space hc]
    simp [wordsAux]
  | cons d a' ih =>
    intro acc
    rcases h : isPySpace d with _ | _
    · rw [List.cons_append, wordsAux_cons_nonspace h, wordsAux_cons_nonspace h, ih]
    · rw [List.cons_append, wordsAux_cons_space h, wordsAux_cons_space h, ih]

theorem wordsAux_space_append {c : Char} (hc : isPySpace c = true) (b : List Char) :
    ∀ (a acc : List Char),
      wordsAux acc (a ++ c :: b) = wordsAux acc (a ++ [c]) ++ wordsAux [] b := by
  intro a
  induction a with
  | nil =>
    intro acc
    rw [List.nil_append, List.nil_append, wordsAux_cons_space hc, wordsAux_cons_space hc]
    simp [wordsAux]
  | cons d a' ih =>
    intro acc
    rcases h : isPySpace d with _ | _
    · rw [List.cons_append, List.cons_append, wordsAux_cons_nonspace h,
        wordsAux_cons_nonspace h, ih]
    · rw [List.cons_append, List.cons_append, wordsAux_cons_space h,
        wordsAux_cons_space h, ih]
      simp [List.append_assoc]

theorem pySplitWs_concat_space {c : Char} (hc : isPySpace c = true) (l : List Char) :
    pySplitWs (l ++ [c]) = pySplitWs l :=
  wordsAux_concat_space hc l []

theorem pySplitWs_space_append {c : Char} (hc : isPySpace c = true) (a b : List Char) :
    pySplitWs (a ++ c :: b) = pySplitWs a ++ pySplitWs b := by
  unfold pySplitWs
  rw [wordsAux_space_append hc b a [], wordsAux_concat_space hc a []]


theorem wordsAux_all_nonspace {w : List Char} (hw : ∀ c ∈ w, isPySpace c = false) :
    ∀ acc : List Char,
      wordsAux acc w = if acc.reverse ++ w = [] then [] else [acc.reverse ++ w] := by
  induction w with
  | nil =>
    intro acc
    simp only [wordsAux, List.append_nil]
    rcases h : acc with _ | _ <;> simp
  | cons c cs ih =>
    intro acc
    have hc : isPySpace c = false := hw c (by simp)
    rw [wordsAux_cons_nonspace hc,
      ih (by intro d hd; exact hw d (by simp [hd])) (c :: acc)]
    simp

theorem pySplitWs_of_wordlike {w : List Char} (hw : wordlike w) : pySplitWs w = [w] := by
  unfold pySplitWs
  rw [wordsAux_all_nonspace hw.2 []]
  simp [hw.1]

theorem mem_wordsAux_wordlike {l : List Char} :
    ∀ acc : List Char, (∀ c ∈ acc, isPySpace c = false) →
      ∀ w ∈ wordsAux acc l, wordlike w := by
  induction l with
  | nil =>
    intro acc hacc w hw
    rcases acc with _ | ⟨d, ds⟩
    · simp [wordsAux] at hw
    · simp only [wordsAux, if_neg (List.cons_ne_nil d ds), List.mem_singleton] at hw
      subst hw
      constructor
      · simp
      · intro c hc
        exact hacc c (List.mem_reverse.mp hc)
  | cons c cs ih =>
    intro acc hacc w hw
    rcases hc : isPySpace c with _ | _
    · rw [wordsAux_cons_nonspace hc] at hw
      refine ih (c :: acc) ?_ w hw
      intro d hd
      rcases List.mem_cons.mp hd with h | h
      · subst h; exact hc
      · exact hacc d h
    · rw [wordsAux_cons_space hc] at hw
      rcases List.mem_append.mp hw with h | h
      · rcases acc with _ | ⟨d, ds⟩
        · simp at h
        · simp only [if_neg (List.cons_ne_nil d ds), List.mem_singleton] at h
          subst h
          constructor
          · simp
          · intro x hx
            exact hacc x (List.mem_reverse.mp hx)
      · exact ih [] (by simp) w h

theorem mem_pySplitWs_wordlike {l : List Char} :
    ∀ w ∈ pySplitWs l, wordlike w :=
  mem_wordsAux_wordlike [] (by simp)

theorem pySplitWs_dropWhile (l : List Char) :
    pySplitWs (l.dropWhile isPySpace) = pySplitWs l := by
  induction l with
  | nil => rfl
  | cons c cs ih =>
    rcases hc : isPySpace c with _ | _
    · rw [List.dropWhile_cons_of_neg (by simp [hc])]
    · rw [List.dropWhile_cons_of_pos hc, ih]
      unfold pySplitWs
      rw [wordsAux_cons_space hc]
      simp

theorem pySplitWs_pyStrip (l : List Char) : pySplitWs (pyStrip l) = pySplitWs l := by
  induction l using List.reverseRecOn with
  | nil => rfl
  | append_singleton a c ih =>
    rcases hc : isPySpace c with _ | _
    · rw [pyStrip_concat_nonspace hc, pySplitWs_dropWhile]
    · rw [pyStrip_append_space hc, pySplitWs_concat_space hc, ih]

theorem pySplitWs_nil : pySplitWs [] = [] := rfl


theorem pySplitWs_append_of_endsSpace {a : List Char} (h : endsSpace a) (b : List Char) :
    pySplitWs (a ++ b) = pySplitWs a ++ pySplitWs b := by
  rcases h with rfl | ⟨x, c, hc, rfl⟩
  · simp [pySplitWs_nil]
  · rw [List.append_assoc, List.singleton_append, pySplitWs_space_append hc,
      pySplitWs_concat_space hc]

theorem wordsAux_lines (t : List Char) :
    ∀ acc, wordsAux acc t
      = wordsAux acc (splitOnNewline t).headI
        ++ ((splitOnNewline t).tail.map pySplitWs).flatten := by
  induction t with
  | nil => intro acc; simp [splitOnNewline]
  | cons c cs ih =>
    intro acc
    by_cases hnl : c = '\n'
    · subst hnl
      rw [show splitOnNewline ('\n' :: cs) = [] :: splitOnNewline cs from by
        simp [splitOnNewline]]
      have hsp : isPySpace '\n' = true := by decide
      rw [wordsAux_cons_space hsp]
      simp only [List.headI_cons, List.tail_cons]
      rw [ih []]
      obtain ⟨l, ls, hcs⟩ := List.exists_cons_of_ne_nil (splitOnNewline_ne_nil cs)
      rw [hcs]
      simp [wordsAux, pySplitWs, List.append_assoc]
    · have hsplit : splitOnNewline (c :: cs)
          = (c :: (splitOnNewline cs).headI) :: (splitOnNewline cs).tail := by
        obtain ⟨l, ls, hcs⟩ := List.exists_cons_of_ne_nil (splitOnNewline_ne_nil cs)
        simp [splitOnNewline, hnl, hcs]
      rw [hsplit]
      simp only [List.headI_cons, List.tail_cons]
      rcases hc : isPySpace c with _ | _
      · rw [wordsAux_cons_nonspace hc, wordsAux_cons_nonspace hc, ih (c :: acc)]
      · rw [wordsAux_cons_space hc, wordsAux_cons_space hc, ih []]
        simp [List.append_assoc]

theorem pySplitWs_join_lines (t : List Char) :
    ((splitOnNewline t).map pySplitWs).flatten = pySplitWs t := by
  obtain ⟨l, ls, h⟩ := List.exists_cons_of_ne_nil (splitOnNewline_ne_nil t)
  have key := wordsAux_lines t []
  rw [h] at key ⊢
  simp only [List.headI_cons, List.tail_cons] at key
  simp only [pySplitWs, List.map_cons, List.flatten_cons]
  rw [key]

theorem packWords_cons_fits {L : Nat} {temp word : List Char}
    (h : temp.length + word.length + 1 ≤ L) (ws ms) :
    packWords L (word :: ws) ms temp = packWords L ws ms (temp ++ word ++ [' ']) := by
  simp only [packWords]
  rw [if_pos h]

theorem packWords_cons_flush {L : Nat} {temp word : List Char}
    (h : ¬ (temp.length + word.length + 1 ≤ L)) (ws ms) :
    packWords L (word :: ws) ms temp
      = packWords L ws (ms ++ [pyStrip temp]) (word ++ [' ']) := by
  simp only [packWords]
  rw [if_neg h]

theorem splitLines_cons_fits {L : Nat} {cur line : List Char}
    (h : cur.length + line.length + 1 ≤ L) (rest ms) :
    splitLines L (line :: rest) ms cur
      = splitLines L rest ms (cur ++ line ++ ['\n']) := by
  simp only [splitLines]
  rw [if_pos h]

theorem splitLines_cons_long {L : Nat} {cur line : List Char}
    (h : ¬ (cur.length + line.length + 1 ≤ L)) (h2 : L < line.length) (rest ms) :
    splitLines L (line :: rest) ms cur
      = splitLines L rest
          (packWords L (pySplitWs line) (flushCurrent ms cur) []).1
          (packWords L (pySplitWs line) (flushCurrent ms cur) []).2 := by
  simp only [splitLines]
  rw [if_neg h, if_pos h2]

theorem splitLines_cons_newline {L : Nat} {cur line : List Char}
    (h : ¬ (cur.length + line.length + 1 ≤ L)) (h2 : ¬ (L < line.length)) (rest ms) :
    splitLines L (line :: rest) ms cur
      = splitLines L rest (flushCurrent ms cur) (line ++ ['\n']) := by
  simp only [splitLines]
  rw [if_neg h, if_neg h2]


theorem chunkWords_flushCurrent (ms : List (List Char)) (cur : List Char) :
    chunkWords (flushCurrent ms cur) = chunkWords ms ++ pySplitWs cur := by
  unfold flushCurrent
  split
  · next h => subst h; simp [pySplitWs_nil]
  · simp [chunkWords, pySplitWs_pyStrip]

theorem packWords_words (L : Nat) :
    ∀ (ws ms : List (List Char)) (temp : List Char),
      (∀ w ∈ ws, wordlike w) → endsSpace temp →
      chunkWords (packWords L ws ms temp).1 ++ pySplitWs (packWords L ws ms temp).2
        = chunkWords ms ++ pySplitWs temp ++ ws
      ∧ endsSpace (packWords L ws ms temp).2 := by
  intro ws
  induction ws with
  | nil =>
    intro ms temp _ hes
    exact ⟨by simp [packWords], by simpa [packWords] using hes⟩
  | cons w ws ih =>
    intro ms temp hws hes
    have hw : wordlike w := hws w (by simp)
    have htail : ∀ x ∈ ws, wordlike x := fun x hx => hws x (by simp [hx])
    have hspace : isPySpace ' ' = true := by decide
    by_cases h : temp.length + w.length + 1 ≤ L
    · rw [packWords_cons_fits h]
      have h1 := ih ms (temp ++ w ++ [' ']) htail
        (Or.inr ⟨temp ++ w, ' ', hspace, by simp⟩)
      refine ⟨?_, h1.2⟩
      rw [h1.1]
      have e : pySplitWs (temp ++ w ++ [' ']) = pySplitWs temp ++ [w] := by
        rw [List.append_assoc, pySplitWs_append_of_endsSpace hes,
          pySplitWs_concat_space hspace, pySplitWs_of_wordlike hw]
      rw [e]
      simp [List.append_assoc]
    · rw [packWords_cons_flush h]
      have h1 := ih (ms ++ [pyStrip temp]) (w ++ [' ']) htail
        (Or.inr ⟨w, ' ', hspace, rfl⟩)
      refine ⟨?_, h1.2⟩
      rw [h1.1]
      have e1 : chunkWords (ms ++ [pyStrip temp]) = chunkWords ms ++ pySplitWs temp := by
        simp [chunkWords, pySplitWs_pyStrip]
      have e2 : pySplitWs (w ++ [' ']) = [w] := by
        rw [pySplitWs_concat_space hspace, pySplitWs_of_wordlike hw]
      rw [e1, e2]
      simp [List.append_assoc]

theorem splitLines_words (L : Nat) :
    ∀ (lines ms : List (List Char)) (cur : List Char),
      endsSpace cur →
      chunkWords (splitLines L lines ms cur).1 ++ pySplitWs (splitLines L lines ms cur).2
        = chunkWords ms ++ pySplitWs cur ++ (lines.map pySplitWs).flatten
      ∧ endsSpace (splitLines L lines ms cur).2 := by
  intro lines
  induction lines with
  | nil =>
    intro ms cur hes
    exact ⟨by simp [splitLines], by simpa [splitLines] using hes⟩
  | cons line rest ih =>
    intro ms cur hes
    have hnl : isPySpace '\n' = true := by decide
    by_cases h1 : cur.length + line.length + 1 ≤ L
    · rw [splitLines_cons_fits h1]
      have h := ih ms (cur ++ line ++ ['\n'])
        (Or.inr ⟨cur ++ line, '\n', hnl, by simp⟩)
      refine ⟨?_, h.2⟩
      rw [h.1]
      have e : pySplitWs (cur ++ line ++ ['\n']) = pySplitWs cur ++ pySplitWs line := by
        rw [List.append_assoc, pySplitWs_append_of_endsSpace hes,
          pySplitWs_concat_space hnl]
      rw [e]
      simp [List.append_assoc]
    · by_cases h2 : L < line.length
      · rw [splitLines_cons_long h1 h2]
        have hpack := packWords_words L (pySplitWs line) (flushCurrent ms cur) []
          (fun w hw => mem_pySplitWs_wordlike w hw) (Or.inl rfl)
        have h := ih (packWords L (pySplitWs line) (flushCurrent ms cur) []).1
          (packWords L (pySplitWs line) (flushCurrent ms cur) []).2 hpack.2
        refine ⟨?_, h.2⟩
        rw [h.1, hpack.1, chunkWords_flushCurrent]
        simp [pySplitWs_nil, List.append_assoc]
      · rw [splitLines_cons_newline h1 h2]
        have h := ih (flushCurrent ms cur) (line ++ ['\n'])
          (Or.inr ⟨line, '\n', hnl, rfl⟩)
        refine ⟨?_, h.2⟩
        rw [h.1, chunkWords_flushCurrent, pySplitWs_concat_space hnl]
        simp [List.append_assoc]

theorem chunkWords_split_message (text : List Char) (L : Nat) :
    chunkWords (split_message text L) = pySplitWs text := by
  have h := splitLines_words L (splitOnNewline text) [] [] (Or.inl rfl)
  have key : chunkWords (flushCurrent (splitLines L (splitOnNewline text) [] []).1
      (splitLines L (splitOnNewline text) [] []).2) = pySplitWs text := by
    rw [chunkWords_flushCurrent, h.1, pySplitWs_nil]
    simp [chunkWords, pySplitWs_join_lines]
  unfold split_message
  split
  · next hnil =>
    rw [hnil] at key
    simp only [chunkWords] at key ⊢
    simp [pySplitWs_nil, ← key]
  · exact key



theorem tempOK_strip {L : Nat} {temp : List Char} (h : tempOK L temp) :
    chunkOK L (pyStrip temp) := by
  rcases h with h | ⟨w, hw, rfl⟩
  · exact Or.inl (le_trans (length_pyStrip_le temp) h)
  · rw [pyStrip_append_space (by decide), pyStrip_no_space hw.2]
    exact Or.inr hw.2

theorem chunkOK_flushCurrent {L : Nat} {ms : List (List Char)} {cur : List Char}
    (hms : ∀ m ∈ ms, chunkOK L m) (hcur : chunkOK L (pyStrip cur)) :
    ∀ m ∈ flushCurrent ms cur, chunkOK L m := by
  intro m hm
  unfold flushCurrent at hm
  split at hm
  · exact hms m hm
  · rcases List.mem_append.mp hm with h | h
    · exact hms m h
    · rw [List.mem_singleton] at h
      subst h
      exact hcur

theorem packWords_chunkOK (L : Nat) :
    ∀ (ws ms : List (List Char)) (temp : List Char),
      (∀ m ∈ ms, chunkOK L m) → tempOK L temp → (∀ w ∈ ws, wordlike w) →
      (∀ m ∈ (packWords L ws ms temp).1, chunkOK L m)
      ∧ tempOK L (packWords L ws ms temp).2 := by
  intro ws
  induction ws with
  | nil =>
    intro ms temp hms htemp _
    exact ⟨by simpa [packWords] using hms, by simpa [packWords] using htemp⟩
  | cons w ws ih =>
    intro ms temp hms htemp hws
    have htail : ∀ x ∈ ws, wordlike x := fun x hx => hws x (by simp [hx])
    by_cases h : temp.length + w.length + 1 ≤ L
    · rw [packWords_cons_fits h]
      exact ih ms _ hms (Or.inl (by simp; omega)) htail
    · rw [packWords_cons_flush h]
      refine ih _ _ ?_ (Or.inr ⟨w, hws w (by simp), rfl⟩) htail
      intro m hm
      rcases List.mem_append.mp hm with hm | hm
      · exact hms m hm
      · rw [List.mem_singleton] at hm
        subst hm
        exact tempOK_strip htemp

theorem splitLines_chunkOK (L : Nat) :
    ∀ (lines ms : List (List Char)) (cur : List Char),
      (∀ m ∈ ms, chunkOK L m) → chunkOK L (pyStrip cur) →
      (∀ m ∈ (splitLines L lines ms cur).1, chunkOK L m)
      ∧ chunkOK L (pyStrip (splitLines L lines ms cur).2) := by
  intro lines
  induction lines with
  | nil =>
    intro ms cur hms hcur
    exact ⟨by simpa [splitLines] using hms, by simpa [splitLines] using hcur⟩
  | cons line rest ih =>
    intro ms cur hms hcur
    by_cases h1 : cur.length + line.length + 1 ≤ L
    · rw [splitLines_cons_fits h1]
      refine ih _ _ hms (Or.inl ?_)
      have := length_pyStrip_le (cur ++ line ++ ['\n'])
      simp only [List.length_append, List.length_cons, List.length_nil] at this
      omega
    · by_cases h2 : L < line.length
      · rw [splitLines_cons_long h1 h2]
        have hpack := packWords_chunkOK L (pySplitWs line) (flushCurrent ms cur) []
          (chunkOK_flushCurrent hms hcur) (Or.inl (by simp))
          (fun w hw => mem_pySplitWs_wordlike w hw)
        exact ih _ _ hpack.1 (tempOK_strip hpack.2)
      · rw [splitLines_cons_newline h1 h2]
        refine ih _ _ (chunkOK_flushCurrent hms hcur) (Or.inl ?_)
        rw [pyStrip_append_space (by decide)]
        have := length_pyStrip_le line
        omega

theorem split_message_chunkOK (text : List Char) (L : Nat) :
    ∀ m ∈ split_message text L, chunkOK L m := by
  have h := splitLines_chunkOK L (splitOnNewline text) [] [] (by simp)
    (Or.inl (by simp [pyStrip]))
  have hall := chunkOK_flushCurrent h.1 h.2
  intro m hm
  unfold split_message at hm
  split at hm
  · simp at hm
    subst hm
    exact Or.inl (by simp)
  · exact hall m hm

theorem splitOnNewline_no_newline {w : List Char} (h : '\n' ∉ w) :
    splitOnNewline w = [w] := by
  induction w with
  | nil => rfl
  | cons c cs ih =>
    have hc : ¬ (c = '\n') := fun hc => h (by simp [hc])
    have ihh : splitOnNewline cs = [cs] := ih (fun hmem => h (by simp [hmem]))
    simp only [splitOnNewline, if_neg hc, ihh]

theorem split_message_overlong_word {w : List Char} {L : Nat}
    (hw : wordlike w) (hlen : L < w.length) :
    split_message w L = [[], w] := by
  have hnl : splitOnNewline w = [w] := splitOnNewline_no_newline (by
    intro hmem
    exact absurd (hw.2 '\n' hmem) (by decide))
  have hws : pySplitWs w = [w] := pySplitWs_of_wordlike hw
  have hc1 : ¬ (([] : List Char).length + w.length + 1 ≤ L) := by
    simp only [List.length_nil]
    omega
  unfold split_message
  rw [hnl, splitLines_cons_long hc1 hlen, hws]
  rw [packWords_cons_flush hc1]
  have hf : flushCurrent [] [] = [] := rfl
  rw [hf]
  simp only [packWords, splitLines]
  have hstrip : pyStrip (w ++ [' ']) = w := by
    rw [pyStrip_append_space (by decide), pyStrip_no_space hw.2]
  have hne : w ++ [' '] ≠ [] := by simp
  have hsn : pyStrip ([] : List Char) = [] := rfl
  simp [flushCurrent, hne, hstrip, hsn]

/- Claim theorems. -/

/-- Claim C5: split_message applied to the empty string returns exactly
one chunk, the empty string, and split_message never returns an empty
sequence. -/
theorem C5_split_message_empty_and_nonempty :
    (∀ L, split_message [] L = [[]]) ∧ ∀ text L, split_message text L ≠ [] := by
  have key : ∀ ms : List (List Char), (if ms = [] then [[]] else ms) ≠ [] := by
    intro ms
    split
    · simp
    · next h => exact h
  constructor
  · intro L
    rcases Nat.eq_zero_or_pos L with h | h
    · subst h; rfl
    · have h1 : ([] : List Char).length + ([] : List Char).length + 1 ≤ L := h
      have hstrip : pyStrip ['\n'] = [] := by decide
      simp [split_message, splitOnNewline, splitLines, flushCurrent, h1, hstrip]
  · intro text L
    unfold split_message
    exact key _

/-- Claim C10: get_text_statistics on the empty string reports one line,
zero words and zero characters, and for every input the reported line
count is at least one. -/
theorem C10_stats_empty_and_line_count :
    get_text_statistics [] = some ⟨1, 0, 0⟩
  ∧ ∀ text, ∃ st, get_text_statistics text = some st ∧ 1 ≤ st.lines := by
  refine ⟨rfl, fun text => ⟨_, rfl, ?_⟩⟩
  simpa [get_text_statistics] using
    List.length_pos.mpr (splitOnNewline_ne_nil text)

/-- Claim C6: on an input that is neither a path nor bytes, the remote
extractor returns the literal invalid-type error and makes no network
call, whatever the file reader and the network behave like. -/
theorem C6_invalid_type (readFile : List Char → Except (List Char) (List Nat))
    (post : List Nat → HttpOutcome) :
    extract_text_from_image_ocr_api readFile post ImageData.other
      = ("ERROR: Invalid image data type".data, false) := rfl

/-- Claim C8: on a successful engine run, the local extractor with a
page number prepends a banner of fifty equals signs, a line reading Page
n, another banner line and a blank line to the trimmed text, and with no
page number returns the trimmed text alone. -/
theorem C8_tesseract_banner (t : List Char) (n : Nat) :
    extract_text_from_image_tesseract (Except.ok t) (some n)
      = List.replicate 50 '=' ++ '\n' :: ("Page ".data ++ (Nat.repr n).data)
          ++ '\n' :: List.replicate 50 '=' ++ '\n' :: '\n' :: pyStrip t
  ∧ extract_text_from_image_tesseract (Except.ok t) none = pyStrip t := by
  constructor
  · simp [extract_text_from_image_tesseract, pageHeader, eqBanner]
  · rfl

/-- Claim C7: the validator rejects a decoded image exceeding either
configured maximum with the size-limit message, and accepts a decoded
image within both bounds whose format is in the four-format allow-list
with OK. -/
theorem C7_validate_image (maxW maxH : Nat) (img : DecodedImage) :
    (maxW < img.width ∨ maxH < img.height →
      validate_image maxW maxH (Except.ok img)
        = (false, "Image size exceeds allowed limits".data))
  ∧ (img.width ≤ maxW → img.height ≤ maxH →
      img.format ∈ ["JPEG".data, "PNG".data, "BMP".data, "TIFF".data] →
      validate_image maxW maxH (Except.ok img) = (true, "OK".data)) := by
  constructor
  · intro h
    simp only [validate_image, if_pos h]
  · intro h1 h2 h3
    have hno : ¬ (maxW < img.width ∨ maxH < img.height) := by omega
    simp only [validate_image, if_neg hno, if_pos h3]

set_option maxRecDepth 8000 in
/-- Claim C3 counterexample: on a two-page document whose first page
extracts to hello and whose second page raises inside the engine call,
the whole-document output still contains the first page text, and is
not a single error string, refuting the all-or-nothing claim. -/
theorem C3_counterexample :
    ("hello".data <:+: extract_text_from_pdf
        (Except.ok [Except.ok "hello".data, Except.error "boom".data]))
  ∧ ¬ ("ERROR".data <+: extract_text_from_pdf
        (Except.ok [Except.ok "hello".data, Except.error "boom".data])) := by
  decide

/-- Claim C3 amended: a failure during rasterization is converted to a
single error string for the whole document, but a failure during the
per-page extraction is caught inside the local extractor and rendered
as that page text, so the output keeps the other pages extracted text:
partial results are returned. -/
theorem C3_amended_pdf_errors :
    (∀ e, extract_text_from_pdf (Except.error e)
        = "ERROR: PDF processing failed: ".data ++ e)
  ∧ ∀ t e, extract_text_from_pdf (Except.ok [Except.ok t, Except.error e])
      = "Total Pages: ".data ++ (Nat.repr 2).data ++ '\n' :: eqBanner ++ '\n' :: '\n' ::
          joinNL [pageHeader 1 ++ pyStrip t, pageSeparator,
                  "ERROR: Image processing failed: ".data ++ e] := by
  constructor
  · intro e; rfl
  · intro t e
    simp [extract_text_from_pdf, pdfBody, joinNL, extract_text_from_image_tesseract,
      List.append_assoc]

/-- Claim C4 counterexample: with the mode already RGB, a sharpness step
that succeeds and produces a new intermediate, and a contrast step that
raises, the function returns the sharpened intermediate, not the
original input image, refuting the returns-the-original claim. -/
theorem C4_counterexample :
    enhance_image_for_ocr (fun _ => "RGB".data)
      (fun i => Except.ok i) (fun i => Except.ok (i ++ ["sharp".data]))
      (fun _ => Except.error "boom".data) (fun i => Except.ok i)
      ([] : List (List Char)) = ["sharp".data]
  ∧ (["sharp".data] : List (List Char)) ≠ [] := by
  constructor
  · rfl
  · simp

/-- Claim C4 amended: on an exception the function returns the value the
image variable holds at that point; this is the original unmodified
input exactly when the first operation attempted fails, namely the RGB
conversion, or the sharpness step when the mode is already RGB. -/
theorem C4_amended_first_step_failure {Img : Type} (mode : Img → List Char)
    (convertRGB sharpnessEnhance contrastEnhance grayscale : Img → Except (List Char) Img)
    (image : Img) (e : List Char)
    (h : (mode image = "RGB".data ∧ sharpnessEnhance image = Except.error e)
       ∨ (mode image ≠ "RGB".data ∧ convertRGB image = Except.error e)) :
    enhance_image_for_ocr mode convertRGB sharpnessEnhance contrastEnhance grayscale image
      = image := by
  rcases h with ⟨h1, h2⟩ | ⟨h1, h2⟩
  · simp [enhance_image_for_ocr, h1, h2]
  · simp [enhance_image_for_ocr, h1, h2]

/-- Witness for the amended claim C4 at a concrete input: with the mode
RGB and a failing sharpness step, the original image is returned. -/
theorem C4_amended_witness :
    enhance_image_for_ocr (fun _ => "RGB".data)
      (fun i => Except.ok i) (fun _ => Except.error "boom".data)
      (fun i => Except.ok i) (fun i => Except.ok i) (7 : Nat) = 7 :=
  C4_amended_first_step_failure (fun _ => "RGB".data)
    (fun i => Except.ok i) (fun _ => Except.error "boom".data)
    (fun i => Except.ok i) (fun i => Except.ok i) 7 "boom".data
    (Or.inl ⟨rfl, rfl⟩)

/-- Witness for claim C7 at concrete inputs: an oversized image is
rejected with the size message, an in-bounds PNG is accepted. -/
theorem C7_validate_image_witness :
    validate_image 100 100 (Except.ok ⟨200, 50, "PNG".data⟩)
      = (false, "Image size exceeds allowed limits".data)
  ∧ validate_image 100 100 (Except.ok ⟨50, 50, "PNG".data⟩) = (true, "OK".data) :=
  ⟨(C7_validate_image 100 100 ⟨200, 50, "PNG".data⟩).1 (by decide),
   (C7_validate_image 100 100 ⟨50, 50, "PNG".data⟩).2 (by decide) (by decide) (by decide)⟩

/-- Claim C1: every chunk returned by split_message has length at most
the maximum, except a chunk that is a single whitespace-free word, which
may exceed it. -/
theorem C1_chunk_length_bound (text : List Char) (L : Nat) (m : List Char)
    (hm : m ∈ split_message text L) :
    m.length ≤ L ∨ ∀ c ∈ m, isPySpace c = false :=
  split_message_chunkOK text L m hm

/-- Witness for claim C1 at a concrete input: the single chunk produced
for a short text satisfies the bound. -/
theorem C1_chunk_length_witness :
    "hi".data.length ≤ 10 ∨ ∀ c ∈ "hi".data, isPySpace c = false :=
  C1_chunk_length_bound "hi".data 10 "hi".data (by decide)

/-- Claim C2: the whitespace-delimited tokens of the chunks returned by
split_message, concatenated in order, are exactly the tokens of the
input text: all non-whitespace content is reproduced in original order
and only whitespace framing changes. -/
theorem C2_words_preserved (text : List Char) (L : Nat) :
    ((split_message text L).map pySplitWs).flatten = pySplitWs text :=
  chunkWords_split_message text L

/-- Claim C9: on a text consisting of one whitespace-free word longer
than the maximum, the word-packing branch first flushes the empty
accumulator, so the returned list begins with the empty string followed
by the nonempty word emitted whole. -/
theorem C9_overlong_word_leading_empty_chunk (w : List Char) (L : Nat)
    (h1 : w ≠ []) (h2 : ∀ c ∈ w, isPySpace c = false) (hlen : L < w.length) :
    split_message w L = [[], w] :=
  split_message_overlong_word ⟨h1, h2⟩ hlen

/-- Witness for claim C9 at a concrete input: a two-character word with
maximum length one yields an empty first chunk and the word itself. -/
theorem C9_overlong_word_witness : split_message "ab".data 1 = [[], "ab".data] :=
  C9_overlong_word_leading_empty_chunk "ab".data 1 (by decide) (by decide) (by decide)
